import Mathlib

/-!
Verification development for the coral-growth step engine
(`coral_growth/coral.py`).  The Python core is shallowly embedded below:
pure numeric state uses rationals, position entries use an IEEE-style
extended value type (finite / plus-infinity / minus-infinity / NaN) so the
NaN assertion of `Coral.step` is modelled faithfully, and the external
collaborators (the cymesh subdivision primitive and the field solvers) are
passed in as explicit parameters.
-/

namespace CoralGrowth

/-- IEEE-style extended value for one position coordinate: a finite rational,
positive or negative infinity, or NaN. -/
inductive EF where
| fin (q : ℚ)
| pinf
| minf
| nan
deriving DecidableEq, Repr

/-- IEEE addition on extended values: NaN propagates, opposite infinities
give NaN, an infinity otherwise absorbs, finite values add exactly. -/
def EF.add : EF → EF → EF
| .nan, _ => .nan
| _, .nan => .nan
| .pinf, .minf => .nan
| .minf, .pinf => .nan
| .pinf, _ => .pinf
| _, .pinf => .pinf
| .minf, _ => .minf
| _, .minf => .minf
| .fin a, .fin b => .fin (a + b)

/-- NaN test, as `math.isnan` / `np.isnan` on one value. -/
def EF.isnan : EF → Bool
| .nan => true
| _ => false

/-- Finiteness test: true exactly on `fin` values. -/
def EF.isFinite : EF → Bool
| .fin _ => true
| _ => false

/-- A 3-vector of extended values: one row of `polyp_pos`. -/
structure V3 where
x : EF
y : EF
z : EF
deriving DecidableEq, Repr

/-- Componentwise IEEE addition of position vectors. -/
def V3.add (a b : V3) : V3 := ⟨a.x.add b.x, a.y.add b.y, a.z.add b.z⟩

/-- The IEEE sum of a list of extended values, as `np.sum` computes it
(left fold starting from zero). -/
def efSum (l : List EF) : EF := l.foldl EF.add (.fin 0)

/-- A mesh face as the core reads it in `polypDivision` and
`calculateEnergy`: its three edge lengths, its area, and the identifiers of
its three vertices. -/
structure Face where
l1 : ℚ
l2 : ℚ
l3 : ℚ
area : ℚ
v1 : ℕ
v2 : ℕ
v3 : ℕ
deriving DecidableEq, Repr

/-- A mesh vertex: its position, its binding to a polyp slot (the
`vert.data` entry written by `createPolyp`), and its one-ring neighbors as
indices into the vertex list. -/
structure Vert where
p : V3
bound : Option ℕ
neighbors : List ℕ
deriving DecidableEq, Repr

/-- The mesh as the core observes it (owned by the external cymesh
collaborator): a face list and a vertex list. -/
structure Mesh where
faces : List Face
verts : List Vert
deriving DecidableEq, Repr

/-- Per memory-bit position `i`, the number of neighbors that are bound to
a polyp and whose memory word has bit `i` set — the array `foo` built by
the neighbor loop of `Coral.createPolyp` (an unbound neighbor, `none`,
contributes nothing). -/
def boundTally (neighbors : List (Option ℕ)) (i : ℕ) : ℕ :=
(neighbors.filter (fun o => match o with | some m => m.testBit i | none => false)).length

/-- The number of neighbors that are bound to a polyp. -/
def boundCount (neighbors : List (Option ℕ)) : ℕ :=
(neighbors.filter Option.isSome).length

/-- Memory inheritance, lines 161-174 of `Coral.createPolyp`: `half` is
`len(neighbors) // 2` over ALL one-ring neighbors, `foo[i]` counts the
bound neighbors with bit `i` set, and bit `i` of the new memory word is set
iff `foo[i] > half`. -/
def inheritMemory (n_memory : ℕ) (neighbors : List (Option ℕ)) : ℕ :=
(List.range n_memory).foldl
  (fun acc i => if boundTally neighbors i > neighbors.length / 2 then acc ||| (1 <<< i) else acc) 0

/-- The polyp-store state of one `Coral` instance: the fields of
`Coral.__init__` that the embedded operations read or write.  Arrays are
modelled as functions from slot index; slots at or beyond `n_polyps` are
dead. -/
structure Coral where
max_polyps : ℕ
n_polyps : ℕ
n_memory : ℕ
polyp_pos : ℕ → V3
polyp_memory : ℕ → ℕ
polyp_light : ℕ → ℚ
polyp_collection : ℕ → ℚ
light_amount : ℚ
energy : ℚ
max_edge_len : ℚ
max_face_area : ℚ
mesh : Mesh
age : ℕ

/-- `Coral.createPolyp(vert)`: returns unchanged at capacity; otherwise
allocates slot `idx = n_polyps`, binds the vertex to it, copies the vertex
position into `polyp_pos[idx]`, and computes the inherited memory word from
the one-ring neighbors (bound neighbors contribute their memory word,
unbound ones contribute `none`). -/
def createPolyp (c : Coral) (vi : ℕ) : Coral :=
if c.n_polyps = c.max_polyps then c
else
  match c.mesh.verts.get? vi with
  | none => c
  | some v =>
    let idx := c.n_polyps
    let neighMems : List (Option ℕ) :=
      v.neighbors.map (fun ni =>
        match c.mesh.verts.get? ni with
        | some nv => nv.bound.map (fun p => c.polyp_memory p)
        | none => none)
    let mem := inheritMemory c.n_memory neighMems
    { c with
      n_polyps := idx + 1
      polyp_pos := fun i => if i = idx then v.p else c.polyp_pos i
      polyp_memory := fun i => if i = idx then mem else c.polyp_memory i
      mesh := { c.mesh with verts := c.mesh.verts.set vi { v with bound := some idx } } }

/-- One iteration of the second loop of `Coral.polypDivision`: create a
polyp for vertex `vi` exactly when it has no binding yet. -/
def bindVert (cc : Coral) (vi : ℕ) : Coral :=
match cc.mesh.verts.get? vi with
| some v => if v.bound.isNone then createPolyp cc vi else cc
| none => cc

/-- The edge-length trigger of the face loop of `Coral.polypDivision`:
split face `i` when the largest of the three edge lengths, read before any
split of this pass touched the face, exceeds `max_edge_len`.  The issued
split is recorded in the trace. -/
def divideFaceEdge (mel : ℚ) (splitFn : Mesh → ℕ → Mesh)
  (mt : Mesh × List ℕ) (i : ℕ) (f : Face) : Mesh × List ℕ :=
if max (max f.l1 f.l2) f.l3 > mel then (splitFn mt.1 i, mt.2 ++ [i]) else mt

/-- The area trigger of the face loop of `Coral.polypDivision`: re-read the
face (whose geometry the edge trigger may just have changed) and split it
when its area exceeds `max_face_area`. -/
def divideFaceArea (mfa : ℚ) (splitFn : Mesh → ℕ → Mesh)
  (mt : Mesh × List ℕ) (i : ℕ) : Mesh × List ℕ :=
match mt.1.faces.get? i with
| none => mt
| some f2 => if f2.area > mfa then (splitFn mt.1 i, mt.2 ++ [i]) else mt

/-- The body of the face loop of `Coral.polypDivision` for face index `i`,
instrumented with a trace of the split calls it issues.  The three edge
lengths are read before any split; the area test then reads the face's
possibly already-split geometry, so both triggers can fire for the same
face.  `splitFn` is the external `cymesh` split primitive. -/
def divideFace (mel mfa : ℚ) (splitFn : Mesh → ℕ → Mesh)
  (mt : Mesh × List ℕ) (i : ℕ) : Mesh × List ℕ :=
match mt.1.faces.get? i with
| none => mt
| some f => divideFaceArea mfa splitFn (divideFaceEdge mel splitFn mt i f) i

/-- The face loop of `Coral.polypDivision` with its split trace.  The break
condition `n_polyps == max_polyps` is loop-invariant (polyps are created
only in the second loop), so at capacity only the first face is processed
before the break, and below capacity every face present at pass start is
processed. -/
def divisionLoop (mel mfa : ℚ) (splitFn : Mesh → ℕ → Mesh)
  (atCap : Bool) (m : Mesh) : Mesh × List ℕ :=
if atCap then
  if m.faces.length = 0 then (m, []) else divideFace mel mfa splitFn (m, []) 0
else
  (List.range m.faces.length).foldl (divideFace mel mfa splitFn) (m, [])

/-- `Coral.polypDivision`: the geometric face pass followed by the bind
pass that creates a polyp for every still-unbound vertex. -/
def polypDivision (splitFn : Mesh → ℕ → Mesh) (c : Coral) : Coral :=
let m2 := (divisionLoop c.max_edge_len c.max_face_area splitFn
            (c.n_polyps == c.max_polyps) c.mesh).1
let c1 := { c with mesh := m2 }
(List.range m2.verts.length).foldl bindVert c1

/-- Modelled from the spec: `grow_polyps` (module `coral_growth.grow_polyps`,
not present under `src/`) evaluates the decision network per live polyp and
applies movement and per-polyp memory writes; per the spec it creates no
polyps and does not alter the mesh topology.  The movement is modelled as
adding a per-polyp displacement `d i` (componentwise IEEE addition) to each
live polyp position; memory writes are irrelevant to the properties proved
here and are left unmodelled. -/
def growPolyps (d : ℕ → V3) (c : Coral) : Coral :=
{ c with polyp_pos := fun i => if i < c.n_polyps then (c.polyp_pos i).add (d i) else c.polyp_pos i }

/-- The light remap of `Coral.updateAttributes`, lines 124-125: subtract
one half from every nonzero entry, then double every entry. -/
def lightRemap (x : ℚ) : ℚ := (if x ≠ 0 then x - 1/2 else x) * 2

/-- `Coral.calculateEnergy`: accumulate, over the mesh faces, the face area
times one third of the sum of the three vertex values, for light and for
collection, and combine them with the `light_amount` weight. -/
def calculateEnergy (c : Coral) : Coral :=
let lt := c.mesh.faces.foldl
  (fun acc f => acc + f.area * (c.polyp_light f.v1 + c.polyp_light f.v2 + c.polyp_light f.v3) / 3) 0
let ct := c.mesh.faces.foldl
  (fun acc f => acc + f.area * (c.polyp_collection f.v1 + c.polyp_collection f.v2 + c.polyp_collection f.v3) / 3) 0
{ c with energy := lt * c.light_amount + ct * (1 - c.light_amount) }

/-- `Coral.updateAttributes`: the external light and collection solvers
produce the raw per-slot arrays `rl` and `rc` (spec section 4.5, steps 2-3);
the core then applies the light remap in place and recomputes the energy.
The normals, curvature, gravity and morphogen updates touch no state
modelled here. -/
def updateAttributes (rl rc : ℕ → ℚ) (c : Coral) : Coral :=
calculateEnergy
  { c with
    polyp_light := fun i => lightRemap (rl i)
    polyp_collection := rc }

/-- The flattened list of live position coordinates,
`self.polyp_pos[:self.n_polyps]` row by row. -/
def livePosList (c : Coral) : List EF :=
(List.range c.n_polyps).flatMap (fun i => [(c.polyp_pos i).x, (c.polyp_pos i).y, (c.polyp_pos i).z])

/-- The assertion test of `Coral.step`, line 99:
`np.isnan(np.sum(self.polyp_pos[:self.n_polyps]))`. -/
def nanCheck (c : Coral) : Bool := (efSum (livePosList c)).isnan

/-- `Coral.step`: grow the polyps (external decision network and movement,
see `growPolyps`), assert that the IEEE sum of the live positions is not
NaN, divide the mesh and create the new polyps, recompute the attributes,
and increment the age. -/
def step (splitFn : Mesh → ℕ → Mesh) (d : ℕ → V3) (rl rc : ℕ → ℚ)
  (c : Coral) : Except String Coral :=
let c1 := growPolyps d c
if nanCheck c1 then .error "NaN position"
else
  let c2 := polypDivision splitFn c1
  let c3 := updateAttributes rl rc c2
  .ok { c3 with age := c3.age + 1 }

/-- True exactly when a step result is a success. -/
def stepOk (e : Except String Coral) : Bool :=
match e with
| .ok _ => true
| .error _ => false

/-- The polyp count of a step result, with a default for the error case. -/
def stepN (e : Except String Coral) (dflt : ℕ) : ℕ :=
match e with
| .ok c => c.n_polyps
| .error _ => dflt

/-- Expected network input count, line 59 of `Coral.__init__`:
`5 + n_memory + n_morphogens * (morph_thresholds - 1)` (exact integer
arithmetic, as in Python). -/
def coralNumInputs (n_memory n_morphogens morph_thresholds : ℤ) : ℤ :=
5 + n_memory + n_morphogens * (morph_thresholds - 1)

/-- Expected network output count, line 60 of `Coral.__init__`:
`1 + n_memory + n_morphogens`. -/
def coralNumOutputs (n_memory n_morphogens : ℤ) : ℤ :=
1 + n_memory + n_morphogens

/-- The assertion sequence of `Coral.__init__`, lines 62-64: the network
shape checks, then the memory-width check. -/
def coralInitChecks (numIn numOut n_memory n_morphogens morph_thresholds : ℤ) :
  Except String Unit :=
if numIn ≠ coralNumInputs n_memory n_morphogens morph_thresholds then .error "bad input count"
else if numOut ≠ coralNumOutputs n_memory n_morphogens then .error "bad output count"
else if ¬ (n_memory ≤ 32) then .error "memory too wide"
else .ok ()

/-! Concrete instances used by the closed-form evaluations below.  Rational
fields carry integer literals only, so the kernel can evaluate every
comparison. -/

/-- A trivial subdivision oracle: splitting changes nothing. -/
def sf0 : Mesh → ℕ → Mesh := fun m _ => m

/-- The zero displacement: the decision network emits no movement. -/
def d0 : ℕ → V3 := fun _ => ⟨.fin 0, .fin 0, .fin 0⟩

/-- A zero raw light field. -/
def rl0 : ℕ → ℚ := fun _ => 0

/-- A zero raw collection field. -/
def rc0 : ℕ → ℚ := fun _ => 0

/-- A concrete subdivision oracle for the closed evaluations: splitting
face `i` leaves, at its slot, a child face with unit edge lengths and a
third of the parent area (the parents below have area 6). -/
def splitShrink (m : Mesh) (i : ℕ) : Mesh :=
match m.faces.get? i with
| none => m
| some f => { m with faces := m.faces.set i { f with l1 := 1, l2 := 1, l3 := 1, area := 2 } }

/-- A one-face mesh whose face exceeds both thresholds 1: edge lengths 3
and area 6. -/
def cexMesh3 : Mesh := ⟨[⟨3, 3, 3, 6, 0, 1, 2⟩], []⟩

/-- A one-face mesh whose face is below both thresholds 2: unit edge
lengths and unit area. -/
def wMesh3 : Mesh := ⟨[⟨1, 1, 1, 1, 0, 1, 2⟩], []⟩

/-- A small healthy coral state: capacity one, no live polyp yet, empty
mesh, all-zero fields. -/
def w2 : Coral :=
{ max_polyps := 1, n_polyps := 0, n_memory := 0
  polyp_pos := fun _ => ⟨.fin 0, .fin 0, .fin 0⟩
  polyp_memory := fun _ => 0
  polyp_light := fun _ => 0, polyp_collection := fun _ => 0
  light_amount := 0, energy := 0
  max_edge_len := 1, max_face_area := 1
  mesh := ⟨[], []⟩, age := 0 }

/-- The successful result of one step from `w2`. -/
def w2res : Coral :=
match step sf0 d0 rl0 rc0 w2 with
| .ok c => c
| .error _ => w2

/-- A coral at capacity whose single live polyp has a NaN coordinate. -/
def w5 : Coral :=
{ w2 with n_polyps := 1, polyp_pos := fun _ => ⟨.nan, .fin 0, .fin 0⟩ }

/-- A coral at capacity with a finite live position. -/
def w5b : Coral := { w2 with n_polyps := 1 }

/-- A coral whose single live polyp has a plus-infinity coordinate and no
NaN anywhere. -/
def w7 : Coral :=
{ w2 with n_polyps := 1, polyp_pos := fun _ => ⟨.pinf, .fin 0, .fin 0⟩ }

/-- A coral below capacity whose live polyp has a NaN coordinate. -/
def w7b : Coral :=
{ w2 with max_polyps := 2, n_polyps := 1, polyp_pos := fun _ => ⟨.nan, .fin 0, .fin 0⟩ }

/-- A coral with one finite live polyp and NaN garbage in the dead slots. -/
def w10 : Coral :=
{ w2 with
  max_polyps := 2
  n_polyps := 1
  polyp_pos := fun i => if i = 0 then ⟨.fin 0, .fin 0, .fin 0⟩ else ⟨.nan, .nan, .nan⟩ }

/-- A coral whose two live polyps hold a plus-infinity and a minus-infinity
coordinate and no NaN anywhere. -/
def w10x : Coral :=
{ w2 with
  max_polyps := 2
  n_polyps := 2
  polyp_pos := fun i => if i = 0 then ⟨.pinf, .fin 0, .fin 0⟩ else ⟨.minf, .fin 0, .fin 0⟩ }

/-! Helper lemmas. -/

lemma inheritMemory_testBit_iff (n : ℕ) (l : List (Option ℕ)) (j : ℕ) :
  (inheritMemory n l).testBit j = true ↔ (j < n ∧ boundTally l j > l.length / 2) := by
unfold inheritMemory
induction n with
| zero => simp
| succ k ih =>
  rw [List.range_succ, List.foldl_append, List.foldl_cons, List.foldl_nil]
  by_cases hc : boundTally l k > l.length / 2
  · rw [if_pos hc, Nat.testBit_lor, Nat.one_shiftLeft, Bool.or_eq_true, ih]
    by_cases hjk : j = k
    · subst hjk
      simp [Nat.testBit_two_pow_self, hc, Nat.lt_succ_self]
    · rw [Nat.testBit_two_pow_of_ne (fun h => hjk h.symm)]
      simp only [Bool.false_eq_true, or_false]
      constructor
      · rintro ⟨h1, h2⟩
        exact ⟨Nat.lt_succ_of_lt h1, h2⟩
      · rintro ⟨h1, h2⟩
        refine ⟨?_, h2⟩
        rcases Nat.lt_succ_iff_lt_or_eq.mp h1 with h | h
        · exact h
        · exact absurd h hjk
  · rw [if_neg hc, ih]
    constructor
    · rintro ⟨h1, h2⟩
      exact ⟨Nat.lt_succ_of_lt h1, h2⟩
    · rintro ⟨h1, h2⟩
      refine ⟨?_, h2⟩
      rcases Nat.lt_succ_iff_lt_or_eq.mp h1 with h | h
      · exact h
      · subst h
        exact absurd h2 hc

lemma foldl_add_eq_sum {α : Type} (g : α → ℚ) (l : List α) (b : ℚ) :
  l.foldl (fun acc x => acc + g x) b = b + (l.map g).sum := by
induction l generalizing b with
| nil => simp
| cons f t ih => simp [ih, add_assoc]

/-! Theorems for the claims. -/

/-- C1, counterexample: with one bound neighbor whose memory has bit 0 set
and one unbound neighbor, the claim predicts bit 0 set (the tally 1
strictly exceeds half of the one bound neighbor), but `createPolyp`
computes `half = len(neighbors) // 2 = 1` over ALL neighbors and leaves the
bit unset. -/
theorem inheritMemory_bound_denominator_cex :
  ¬ (((inheritMemory 1 [some 1, none]).testBit 0 = true) ↔
      2 * boundTally [some 1, none] 0 > boundCount [some 1, none]) := by decide

/-- C1 (amended): for every memory-bit position `i < n_memory`, bit `i` of
the new polyp's memory is set iff the number of bound one-ring neighbors
with bit `i` set strictly exceeds `len(neighbors) // 2`, the floored half
of the count of ALL one-ring neighbors (bound or not); ties and the
no-neighbor case leave the bit unset, and unbound neighbors are excluded
from the tally but counted in the denominator. -/
theorem inheritMemory_majority (n : ℕ) (l : List (Option ℕ)) (i : ℕ) (h : i < n) :
  (inheritMemory n l).testBit i = true ↔ boundTally l i > l.length / 2 := by
rw [inheritMemory_testBit_iff]
exact and_iff_right h

/-- C1 witness: three neighbors, two bound with bit 0 set, one unbound;
`half = 1` and the tally 2 exceeds it, so bit 0 is set. -/
theorem inheritMemory_majority_witness :
  (0 < 1 ∧
    ((inheritMemory 1 [some 1, some 1, none]).testBit 0 = true ↔
      boundTally [some 1, some 1, none] 0 > [some 1, some 1, none].length / 2)) :=
⟨by decide, inheritMemory_majority 1 [some 1, some 1, none] 0 (by decide)⟩

/-- C9: memory inheritance is a pure function of the multiset of neighbor
entries: permuting the neighbor list (same bound memories, same total
neighbor count) yields the same memory word. -/
theorem inheritMemory_perm_invariant (n : ℕ) (l1 l2 : List (Option ℕ))
  (h : l1.Perm l2) : inheritMemory n l1 = inheritMemory n l2 := by
have hlen : l1.length = l2.length := h.length_eq
have htal : ∀ i, boundTally l1 i = boundTally l2 i := by
  intro i
  unfold boundTally
  exact (h.filter _).length_eq
unfold inheritMemory
rw [hlen]
simp only [htal]

/-- C9 witness: swapping a bound and an unbound neighbor does not change
the inherited memory word. -/
theorem inheritMemory_perm_invariant_witness :
  inheritMemory 1 [some 1, none] = inheritMemory 1 [none, some 1] :=
inheritMemory_perm_invariant 1 [some 1, none] [none, some 1] (by decide)

/-- C4: after `updateAttributes`, the light value of every slot is the
exact affine remap of the raw solver output: a raw value of exactly 0 stays
0, and every nonzero raw value x becomes (x - 1/2) * 2. -/
theorem updateAttributes_light_remap (rl rc : ℕ → ℚ) (c : Coral) (i : ℕ) :
  (updateAttributes rl rc c).polyp_light i =
    if rl i = 0 then 0 else (rl i - 1/2) * 2 := by
show lightRemap (rl i) = _
unfold lightRemap
by_cases h : rl i = 0 <;> simp [h]

/-- C6: `calculateEnergy` sets energy to
`light_total * light_amount + collection_total * (1 - light_amount)`, where
each total sums, over the mesh faces, the face area times the mean of the
three vertex values. -/
theorem calculateEnergy_spec (c : Coral) :
  (calculateEnergy c).energy =
    (c.mesh.faces.map (fun f =>
      f.area * ((c.polyp_light f.v1 + c.polyp_light f.v2 + c.polyp_light f.v3) / 3))).sum
      * c.light_amount
    + (c.mesh.faces.map (fun f =>
      f.area * ((c.polyp_collection f.v1 + c.polyp_collection f.v2 + c.polyp_collection f.v3) / 3))).sum
      * (1 - c.light_amount) := by
show (c.mesh.faces.foldl
      (fun acc f => acc + f.area * (c.polyp_light f.v1 + c.polyp_light f.v2 + c.polyp_light f.v3) / 3) 0)
      * c.light_amount
    + (c.mesh.faces.foldl
      (fun acc f => acc + f.area * (c.polyp_collection f.v1 + c.polyp_collection f.v2 + c.polyp_collection f.v3) / 3) 0)
      * (1 - c.light_amount) = _
rw [foldl_add_eq_sum
      (fun (f : Face) => f.area * (c.polyp_light f.v1 + c.polyp_light f.v2 + c.polyp_light f.v3) / 3),
    foldl_add_eq_sum
      (fun (f : Face) => f.area * (c.polyp_collection f.v1 + c.polyp_collection f.v2 + c.polyp_collection f.v3) / 3)]
simp [mul_div_assoc]

/-- C8: construction fails with a shape error exactly when the network
input count differs from `5 + n_memory + n_morphogens * (morph_thresholds - 1)`
or the output count differs from `1 + n_memory + n_morphogens`; when both
counts match, construction never fails on account of shape. -/
theorem coralInitChecks_shape (numIn numOut nm nmo mt : ℤ) :
  (coralInitChecks numIn numOut nm nmo mt = .error "bad input count"
    ∨ coralInitChecks numIn numOut nm nmo mt = .error "bad output count")
  ↔ (numIn ≠ coralNumInputs nm nmo mt ∨ numOut ≠ coralNumOutputs nm nmo) := by
unfold coralInitChecks
by_cases h1 : numIn = coralNumInputs nm nmo mt
· by_cases h2 : numOut = coralNumOutputs nm nmo
  · by_cases h3 : nm ≤ 32 <;> simp [h1, h2, h3]
  · simp [h1, h2]
· simp [h1]

/-! Lemmas on IEEE sums. -/

lemma EF.nan_add (b : EF) : EF.add .nan b = .nan := by cases b <;> rfl

lemma EF.add_nan (a : EF) : EF.add a .nan = .nan := by cases a <;> rfl

lemma EF.add_finite (a b : EF) (ha : a.isFinite = true) (hb : b.isFinite = true) :
  (a.add b).isFinite = true := by
cases a <;> cases b <;> simp_all [EF.add, EF.isFinite]

lemma EF.isnan_eq_false_of_finite (a : EF) (h : a.isFinite = true) : a.isnan = false := by
cases a <;> simp_all [EF.isnan, EF.isFinite]

lemma foldl_add_nan (l : List EF) : l.foldl EF.add .nan = .nan := by
induction l with
| nil => rfl
| cons x t ih =>
  rw [List.foldl_cons, EF.nan_add]
  exact ih

lemma foldl_add_of_nan_mem (l : List EF) :
  ∀ acc : EF, .nan ∈ l → l.foldl EF.add acc = .nan := by
induction l with
| nil =>
  intro acc h
  cases h
| cons x t ih =>
  intro acc h
  rcases List.mem_cons.mp h with h1 | h1
  · rw [List.foldl_cons, ← h1, EF.add_nan]
    exact foldl_add_nan t
  · rw [List.foldl_cons]
    exact ih _ h1

lemma foldl_add_finite (l : List EF) :
  ∀ acc : EF, acc.isFinite = true → (∀ x ∈ l, x.isFinite = true) →
    (l.foldl EF.add acc).isFinite = true := by
induction l with
| nil =>
  intro acc ha _
  exact ha
| cons x t ih =>
  intro acc ha h
  rw [List.foldl_cons]
  exact ih _ (EF.add_finite _ _ ha (h x (List.mem_cons_self x t))) (fun y hy => h y (List.mem_cons_of_mem _ hy))

lemma efSum_of_nan_mem (l : List EF) (h : .nan ∈ l) : efSum l = .nan :=
foldl_add_of_nan_mem l _ h

lemma efSum_finite (l : List EF) (h : ∀ x ∈ l, x.isFinite = true) :
  (efSum l).isFinite = true :=
foldl_add_finite l _ rfl h

/-! Lemmas on the NaN check of `step`. -/

lemma growPolyps_pos_live (d : ℕ → V3) (c : Coral) (i : ℕ) (hi : i < c.n_polyps) :
  (growPolyps d c).polyp_pos i = (c.polyp_pos i).add (d i) := by
simp [growPolyps, hi]

lemma nanCheck_true_of_live_nan (c : Coral) (i : ℕ) (hi : i < c.n_polyps)
  (h : (c.polyp_pos i).x = .nan ∨ (c.polyp_pos i).y = .nan ∨ (c.polyp_pos i).z = .nan) :
  nanCheck c = true := by
have hm : EF.nan ∈ livePosList c := by
  unfold livePosList
  rw [List.mem_flatMap]
  refine ⟨i, List.mem_range.mpr hi, ?_⟩
  rcases h with h | h | h <;> rw [← h] <;> simp
unfold nanCheck
rw [efSum_of_nan_mem _ hm]
rfl

lemma nanCheck_false_of_live_finite (c : Coral)
  (h : ∀ i, i < c.n_polyps →
    ((c.polyp_pos i).x.isFinite = true ∧ (c.polyp_pos i).y.isFinite = true ∧
      (c.polyp_pos i).z.isFinite = true)) :
  nanCheck c = false := by
unfold nanCheck
have hfin : (efSum (livePosList c)).isFinite = true := by
  apply efSum_finite
  intro x hx
  unfold livePosList at hx
  rw [List.mem_flatMap] at hx
  obtain ⟨i, hi, hx⟩ := hx
  have hi2 := List.mem_range.mp hi
  obtain ⟨h1, h2, h3⟩ := h i hi2
  simp only [List.mem_cons, List.not_mem_nil, or_false] at hx
  rcases hx with hx | hx | hx
  · rw [hx]; exact h1
  · rw [hx]; exact h2
  · rw [hx]; exact h3
exact EF.isnan_eq_false_of_finite _ hfin

/-! Lemmas on the polyp counters. -/

lemma createPolyp_max (c : Coral) (vi : ℕ) :
  (createPolyp c vi).max_polyps = c.max_polyps := by
unfold createPolyp
split
· rfl
· split <;> rfl

lemma createPolyp_n_ge (c : Coral) (vi : ℕ) :
  c.n_polyps ≤ (createPolyp c vi).n_polyps := by
unfold createPolyp
split
· exact le_refl _
· split
  · exact le_refl _
  · exact Nat.le_succ _

lemma createPolyp_n_le (c : Coral) (vi : ℕ) (h : c.n_polyps ≤ c.max_polyps) :
  (createPolyp c vi).n_polyps ≤ c.max_polyps := by
unfold createPolyp
split
· exact h
· rename_i hne
  split
  · exact h
  · exact Nat.succ_le_of_lt (Nat.lt_of_le_of_ne h hne)

lemma createPolyp_at_cap (c : Coral) (vi : ℕ) (h : c.n_polyps = c.max_polyps) :
  createPolyp c vi = c := by
unfold createPolyp
rw [if_pos h]

lemma bindVert_max (cc : Coral) (vi : ℕ) : (bindVert cc vi).max_polyps = cc.max_polyps := by
unfold bindVert
split
· split
  · exact createPolyp_max _ _
  · rfl
· rfl

lemma bindVert_n_ge (cc : Coral) (vi : ℕ) : cc.n_polyps ≤ (bindVert cc vi).n_polyps := by
unfold bindVert
split
· split
  · exact createPolyp_n_ge _ _
  · exact le_refl _
· exact le_refl _

lemma bindVert_n_le (cc : Coral) (vi : ℕ) (h : cc.n_polyps ≤ cc.max_polyps) :
  (bindVert cc vi).n_polyps ≤ cc.max_polyps := by
unfold bindVert
split
· split
  · exact createPolyp_n_le _ _ h
  · exact h
· exact h

lemma bindVert_at_cap (cc : Coral) (vi : ℕ) (h : cc.n_polyps = cc.max_polyps) :
  bindVert cc vi = cc := by
unfold bindVert
split
· split
  · exact createPolyp_at_cap _ _ h
  · rfl
· rfl

lemma foldl_bindVert_max (l : List ℕ) :
  ∀ c : Coral, (l.foldl bindVert c).max_polyps = c.max_polyps := by
induction l with
| nil =>
  intro c
  rfl
| cons v t ih =>
  intro c
  rw [List.foldl_cons, ih, bindVert_max]

lemma foldl_bindVert_n_ge (l : List ℕ) :
  ∀ c : Coral, c.n_polyps ≤ (l.foldl bindVert c).n_polyps := by
induction l with
| nil =>
  intro c
  exact le_refl _
| cons v t ih =>
  intro c
  rw [List.foldl_cons]
  exact le_trans (bindVert_n_ge c v) (ih _)

lemma foldl_bindVert_n_le (l : List ℕ) :
  ∀ c : Coral, c.n_polyps ≤ c.max_polyps →
    (l.foldl bindVert c).n_polyps ≤ c.max_polyps := by
induction l with
| nil =>
  intro c h
  exact h
| cons v t ih =>
  intro c h
  rw [List.foldl_cons]
  have h1 := bindVert_n_le c v h
  have h2 := bindVert_max c v
  have := ih (bindVert c v) (by rw [h2]; exact h1)
  rwa [h2] at this

lemma foldl_bindVert_at_cap (l : List ℕ) :
  ∀ c : Coral, c.n_polyps = c.max_polyps → l.foldl bindVert c = c := by
induction l with
| nil =>
  intro c _
  rfl
| cons v t ih =>
  intro c h
  rw [List.foldl_cons, bindVert_at_cap c v h]
  exact ih c h

lemma polypDivision_max (sf : Mesh → ℕ → Mesh) (c : Coral) :
  (polypDivision sf c).max_polyps = c.max_polyps := by
unfold polypDivision
rw [foldl_bindVert_max]

lemma polypDivision_n_ge (sf : Mesh → ℕ → Mesh) (c : Coral) :
  c.n_polyps ≤ (polypDivision sf c).n_polyps :=
foldl_bindVert_n_ge
  (List.range ((divisionLoop c.max_edge_len c.max_face_area sf (c.n_polyps == c.max_polyps) c.mesh).1.verts.length))
  { c with mesh := (divisionLoop c.max_edge_len c.max_face_area sf (c.n_polyps == c.max_polyps) c.mesh).1 }

lemma polypDivision_n_le (sf : Mesh → ℕ → Mesh) (c : Coral)
  (h : c.n_polyps ≤ c.max_polyps) :
  (polypDivision sf c).n_polyps ≤ c.max_polyps :=
foldl_bindVert_n_le
  (List.range ((divisionLoop c.max_edge_len c.max_face_area sf (c.n_polyps == c.max_polyps) c.mesh).1.verts.length))
  { c with mesh := (divisionLoop c.max_edge_len c.max_face_area sf (c.n_polyps == c.max_polyps) c.mesh).1 }
  h

lemma polypDivision_at_cap (sf : Mesh → ℕ → Mesh) (c : Coral)
  (h : c.n_polyps = c.max_polyps) :
  (polypDivision sf c).n_polyps = c.n_polyps := by
have h1 := polypDivision_n_le sf c (le_of_eq h)
have h2 := polypDivision_n_ge sf c
omega

lemma updateAttributes_n (rl rc : ℕ → ℚ) (c : Coral) :
  (updateAttributes rl rc c).n_polyps = c.n_polyps := rfl

lemma growPolyps_n (d : ℕ → V3) (c : Coral) :
  (growPolyps d c).n_polyps = c.n_polyps := rfl

lemma step_ok_n (sf : Mesh → ℕ → Mesh) (d : ℕ → V3) (rl rc : ℕ → ℚ)
  (c c2 : Coral) (hok : step sf d rl rc c = .ok c2) :
  c2.n_polyps = (polypDivision sf (growPolyps d c)).n_polyps := by
unfold step at hok
by_cases h : nanCheck (growPolyps d c) = true
· rw [if_pos h] at hok
  cases hok
· rw [if_neg h] at hok
  cases hok
  rfl

lemma step_eq_ok_of_not_nan (sf : Mesh → ℕ → Mesh) (d : ℕ → V3) (rl rc : ℕ → ℚ)
  (c : Coral) (h : nanCheck (growPolyps d c) = false) :
  ∃ c2 : Coral, step sf d rl rc c = .ok c2 := by
unfold step
rw [if_neg (by rw [h]; exact Bool.false_ne_true)]
exact ⟨_, rfl⟩

/-- C2: for every successful `step()` call from a state satisfying the
capacity invariant, `n_polyps` after the call is at least its value before
the call and never exceeds `max_polyps`; moreover, once
`n_polyps == max_polyps`, `createPolyp` creates nothing and returns the
state unchanged (without raising). -/
theorem step_npolyps_monotone (sf : Mesh → ℕ → Mesh) (d : ℕ → V3) (rl rc : ℕ → ℚ)
  (c c2 : Coral) (hle : c.n_polyps ≤ c.max_polyps)
  (hok : step sf d rl rc c = .ok c2) :
  (c.n_polyps ≤ c2.n_polyps ∧ c2.n_polyps ≤ c.max_polyps) ∧
    ∀ (c3 : Coral) (vi : ℕ), c3.n_polyps = c3.max_polyps → createPolyp c3 vi = c3 := by
have h2 := step_ok_n sf d rl rc c c2 hok
constructor
· constructor
  · rw [h2]
    exact polypDivision_n_ge sf (growPolyps d c)
  · rw [h2]
    exact polypDivision_n_le sf (growPolyps d c) hle
· exact fun c3 vi h => createPolyp_at_cap c3 vi h

/-- C2 witness: one concrete successful step from the small healthy state. -/
theorem step_npolyps_monotone_witness :
  w2.n_polyps ≤ w2res.n_polyps ∧ w2res.n_polyps ≤ w2.max_polyps :=
(step_npolyps_monotone sf0 d0 rl0 rc0 w2 w2res (by decide) rfl).1

/-- C5, counterexample: a state at capacity whose live position holds a
NaN; the claim says a full `step()` at capacity does not raise, but the
assertion fires. -/
theorem step_at_capacity_cex :
  w5.n_polyps = w5.max_polyps ∧ step sf0 d0 rl0 rc0 w5 = .error "NaN position" :=
⟨rfl, rfl⟩

/-- C5 (amended): if `n_polyps` equals `max_polyps` at entry and the
post-movement live positions do not sum to NaN, the full `step()` call
succeeds (no error) and creates zero new polyps, leaving `n_polyps`
unchanged; with a NaN live position the NaN assertion still raises. -/
theorem step_at_capacity (sf : Mesh → ℕ → Mesh) (d : ℕ → V3) (rl rc : ℕ → ℚ)
  (c : Coral) (hcap : c.n_polyps = c.max_polyps)
  (hnan : nanCheck (growPolyps d c) = false) :
  stepOk (step sf d rl rc c) = true ∧ stepN (step sf d rl rc c) 0 = c.n_polyps := by
obtain ⟨c2, hc2⟩ := step_eq_ok_of_not_nan sf d rl rc c hnan
have hn := step_ok_n sf d rl rc c c2 hc2
rw [hc2]
constructor
· rfl
· show c2.n_polyps = c.n_polyps
  rw [hn]
  exact polypDivision_at_cap sf (growPolyps d c) hcap

/-- C5 witness: a concrete at-capacity state with finite positions steps
successfully and keeps its polyp count. -/
theorem step_at_capacity_witness :
  stepOk (step sf0 d0 rl0 rc0 w5b) = true ∧ stepN (step sf0 d0 rl0 rc0 w5b) 0 = w5b.n_polyps :=
step_at_capacity sf0 d0 rl0 rc0 w5b rfl (by decide)

/-- C7, counterexample: a live position holding plus-infinity is
non-finite, yet `np.isnan(np.sum(...))` is false (the sum is infinite, not
NaN) and `step()` completes without raising. -/
theorem step_nan_aborts_cex :
  (w7.polyp_pos 0).x.isFinite = false ∧ 0 < w7.n_polyps ∧
    stepOk (step sf0 d0 rl0 rc0 w7) = true :=
⟨rfl, by decide, rfl⟩

/-- C7 (amended): if any live polyp position coordinate is NaN when
`step()` is entered, the call raises the NaN-position assertion, whatever
movement the decision network produces; a merely infinite (non-NaN)
corruption is not detected unless both infinities occur, because the check
is `isnan` of the sum. -/
theorem step_nan_aborts (sf : Mesh → ℕ → Mesh) (d : ℕ → V3) (rl rc : ℕ → ℚ)
  (c : Coral) (i : ℕ) (hi : i < c.n_polyps)
  (h : (c.polyp_pos i).x = .nan ∨ (c.polyp_pos i).y = .nan ∨ (c.polyp_pos i).z = .nan) :
  step sf d rl rc c = .error "NaN position" := by
have hnan : nanCheck (growPolyps d c) = true := by
  apply nanCheck_true_of_live_nan (growPolyps d c) i hi
  rw [growPolyps_pos_live d c i hi]
  rcases h with h | h | h
  · exact Or.inl (by show ((c.polyp_pos i).x.add (d i).x) = .nan; rw [h]; exact EF.nan_add _)
  · exact Or.inr (Or.inl (by show ((c.polyp_pos i).y.add (d i).y) = .nan; rw [h]; exact EF.nan_add _))
  · exact Or.inr (Or.inr (by show ((c.polyp_pos i).z.add (d i).z) = .nan; rw [h]; exact EF.nan_add _))
unfold step
rw [if_pos hnan]

/-- C7 witness: a live NaN coordinate makes the concrete step raise. -/
theorem step_nan_aborts_witness :
  step sf0 d0 rl0 rc0 w7b = .error "NaN position" :=
step_nan_aborts sf0 d0 rl0 rc0 w7b 0 (by decide) (Or.inl rfl)

/-- C10, counterexample: no live position contains NaN (slot 0 is plus
infinity, slot 1 is minus infinity), yet the check fails and `step()`
aborts, because the two infinities sum to NaN. -/
theorem step_live_slots_cex :
  w10x.n_polyps = 2 ∧ w10x.polyp_pos 0 = ⟨.pinf, .fin 0, .fin 0⟩ ∧
    w10x.polyp_pos 1 = ⟨.minf, .fin 0, .fin 0⟩ ∧
    step sf0 d0 rl0 rc0 w10x = .error "NaN position" :=
⟨rfl, rfl, rfl, rfl⟩

/-- C10 (amended): the corruption check reads only the live slots
`polyp_pos[0..n_polyps-1]`: whenever all live coordinates (and the applied
movements) are finite, the check passes and `step()` does not abort,
regardless of any values — including NaN — stored at slots `n_polyps` and
beyond; live positions summing to NaN (some NaN coordinate, or both
infinities) are the only way the check fires. -/
theorem step_live_slots_only (sf : Mesh → ℕ → Mesh) (d : ℕ → V3) (rl rc : ℕ → ℚ)
  (c : Coral)
  (hpos : ∀ i, i < c.n_polyps →
    ((c.polyp_pos i).x.isFinite = true ∧ (c.polyp_pos i).y.isFinite = true ∧
      (c.polyp_pos i).z.isFinite = true))
  (hd : ∀ i, i < c.n_polyps →
    ((d i).x.isFinite = true ∧ (d i).y.isFinite = true ∧ (d i).z.isFinite = true)) :
  nanCheck (growPolyps d c) = false ∧ stepOk (step sf d rl rc c) = true := by
have hfin : nanCheck (growPolyps d c) = false := by
  apply nanCheck_false_of_live_finite
  intro i hi
  have hi2 : i < c.n_polyps := hi
  rw [growPolyps_pos_live d c i hi2]
  obtain ⟨p1, p2, p3⟩ := hpos i hi2
  obtain ⟨q1, q2, q3⟩ := hd i hi2
  exact ⟨EF.add_finite _ _ p1 q1, EF.add_finite _ _ p2 q2, EF.add_finite _ _ p3 q3⟩
refine ⟨hfin, ?_⟩
obtain ⟨c2, hc2⟩ := step_eq_ok_of_not_nan sf d rl rc c hfin
rw [hc2]
rfl

/-- C10 witness: with a finite live polyp and NaN garbage in the dead
slots, the check passes and the step succeeds. -/
theorem step_live_slots_only_witness :
  nanCheck (growPolyps d0 w10) = false ∧ stepOk (step sf0 d0 rl0 rc0 w10) = true :=
step_live_slots_only sf0 d0 rl0 rc0 w10
  (fun i hi => by
    have h0 : i = 0 := Nat.lt_one_iff.mp hi
    subst h0
    exact ⟨rfl, rfl, rfl⟩)
  (fun i _ => ⟨rfl, rfl, rfl⟩)

/-! Lemmas on the split trace of the division pass. -/

lemma divideFaceEdge_trace (mel : ℚ) (sf : Mesh → ℕ → Mesh) (mt : Mesh × List ℕ)
  (i : ℕ) (f : Face) :
  ∃ s, (divideFaceEdge mel sf mt i f).2 = mt.2 ++ s ∧
    ∀ j, s.count j ≤ if j = i then 1 else 0 := by
unfold divideFaceEdge
by_cases hc : max (max f.l1 f.l2) f.l3 > mel
· rw [if_pos hc]
  refine ⟨[i], rfl, ?_⟩
  intro j
  by_cases hj : j = i <;> simp [hj, List.count_cons, List.count_nil]
· rw [if_neg hc]
  refine ⟨[], by simp, ?_⟩
  intro j
  by_cases hj : j = i <;> simp [hj]

lemma divideFaceArea_trace (mfa : ℚ) (sf : Mesh → ℕ → Mesh) (mt : Mesh × List ℕ)
  (i : ℕ) :
  ∃ s, (divideFaceArea mfa sf mt i).2 = mt.2 ++ s ∧
    ∀ j, s.count j ≤ if j = i then 1 else 0 := by
unfold divideFaceArea
split
· refine ⟨[], by simp, ?_⟩
  intro j
  by_cases hj : j = i <;> simp [hj]
· split
  · refine ⟨[i], rfl, ?_⟩
    intro j
    by_cases hj : j = i <;> simp [hj, List.count_cons, List.count_nil]
  · refine ⟨[], by simp, ?_⟩
    intro j
    by_cases hj : j = i <;> simp [hj]

lemma divideFace_trace (mel mfa : ℚ) (sf : Mesh → ℕ → Mesh) (mt : Mesh × List ℕ)
  (i : ℕ) :
  ∃ s, (divideFace mel mfa sf mt i).2 = mt.2 ++ s ∧
    ∀ j, s.count j ≤ if j = i then 2 else 0 := by
unfold divideFace
split
· refine ⟨[], by simp, ?_⟩
  intro j
  by_cases hj : j = i <;> simp [hj]
· rename_i f hf
  obtain ⟨s1, hs1, hc1⟩ := divideFaceEdge_trace mel sf mt i f
  obtain ⟨s2, hs2, hc2⟩ := divideFaceArea_trace mfa sf (divideFaceEdge mel sf mt i f) i
  refine ⟨s1 ++ s2, ?_, ?_⟩
  · rw [hs2, hs1, List.append_assoc]
  · intro j
    rw [List.count_append]
    have h1 := hc1 j
    have h2 := hc2 j
    by_cases hj : j = i
    · rw [if_pos hj] at h1 h2 ⊢
      omega
    · rw [if_neg hj] at h1 h2 ⊢
      omega

lemma foldl_divideFace_count (mel mfa : ℚ) (sf : Mesh → ℕ → Mesh) :
  ∀ idxs : List ℕ, idxs.Nodup → ∀ (mt : Mesh × List ℕ) (j : ℕ),
    ((idxs.foldl (divideFace mel mfa sf) mt).2).count j
      ≤ mt.2.count j + (if j ∈ idxs then 2 else 0) := by
intro idxs
induction idxs with
| nil =>
  intro _ mt j
  simp
| cons i t ih =>
  intro hnd mt j
  obtain ⟨hni, hndt⟩ := List.nodup_cons.mp hnd
  rw [List.foldl_cons]
  have hih := ih hndt (divideFace mel mfa sf mt i) j
  obtain ⟨s, hs, hcs⟩ := divideFace_trace mel mfa sf mt i
  rw [hs, List.count_append] at hih
  have hc := hcs j
  by_cases hj : j = i
  · subst hj
    rw [if_neg hni] at hih
    rw [if_pos rfl] at hc
    rw [if_pos (List.mem_cons_self j t)]
    omega
  · rw [if_neg hj] at hc
    by_cases hjt : j ∈ t
    · rw [if_pos hjt] at hih
      rw [if_pos (List.mem_cons_of_mem i hjt)]
      omega
    · rw [if_neg hjt] at hih
      rw [if_neg (by simp [List.mem_cons, hj, hjt])]
      omega

lemma divideFace_id_of_small (mel mfa : ℚ) (sf : Mesh → ℕ → Mesh) (m : Mesh)
  (t : List ℕ) (i : ℕ)
  (hsmall : ∀ f ∈ m.faces, max (max f.l1 f.l2) f.l3 ≤ mel ∧ f.area ≤ mfa) :
  divideFace mel mfa sf (m, t) i = (m, t) := by
unfold divideFace
cases hg : m.faces.get? i with
| none => simp [hg]
| some f =>
  have hf : f ∈ m.faces := List.get?_mem hg
  have hedge : divideFaceEdge mel sf (m, t) i f = (m, t) := by
    unfold divideFaceEdge
    rw [if_neg (not_lt.mpr (hsmall f hf).1)]
  simp only [hg, hedge]
  unfold divideFaceArea
  simp only [hg]
  rw [if_neg (not_lt.mpr (hsmall f hf).2)]

lemma foldl_divideFace_id (mel mfa : ℚ) (sf : Mesh → ℕ → Mesh) (m : Mesh) (t : List ℕ)
  (hsmall : ∀ f ∈ m.faces, max (max f.l1 f.l2) f.l3 ≤ mel ∧ f.area ≤ mfa) :
  ∀ idxs : List ℕ, idxs.foldl (divideFace mel mfa sf) (m, t) = (m, t) := by
intro idxs
induction idxs with
| nil => rfl
| cons i t2 ih =>
  rw [List.foldl_cons, divideFace_id_of_small mel mfa sf m t i hsmall]
  exact ih

/-- C3, counterexample: with both thresholds 1 and a face of edge lengths 3
and area 6, whose split leaves a child of area 2 at the same slot, the
single division pass splits face 0 twice — once for the edge trigger and
once for the area trigger — so a face can be split more than once per
pass. -/
theorem polypDivision_split_once_cex :
  ¬ ((divisionLoop 1 1 splitShrink false cexMesh3).2.count 0 ≤ 1) := by decide

/-- C3 (amended): within a single division pass each mesh face receives at
most two split calls (the edge-length trigger and the area trigger can each
fire once); and a face whose three edge lengths are all at or below
`max_edge_len` and whose area is at or below `max_face_area` is never
split — when every face is below both thresholds the pass leaves the mesh
unchanged and issues no split, so repeated calls with unchanged geometry
never split. -/
theorem polypDivision_split_bounds (mel mfa : ℚ) (sf : Mesh → ℕ → Mesh)
  (atCap : Bool) (m : Mesh) :
  (∀ j, ((divisionLoop mel mfa sf atCap m).2).count j ≤ 2) ∧
    ((∀ f ∈ m.faces, max (max f.l1 f.l2) f.l3 ≤ mel ∧ f.area ≤ mfa) →
      divisionLoop mel mfa sf atCap m = (m, [])) := by
constructor
· intro j
  unfold divisionLoop
  cases atCap with
  | true =>
    by_cases h0 : m.faces.length = 0
    · simp [h0]
    · simp only [if_true, ite_true, if_neg h0]
      obtain ⟨s, hs, hcs⟩ := divideFace_trace mel mfa sf (m, []) 0
      rw [hs]
      have hc := hcs j
      by_cases hj : j = 0 <;> simp_all
  | false =>
    simp only [Bool.false_eq_true, if_false]
    have := foldl_divideFace_count mel mfa sf (List.range m.faces.length)
      (List.nodup_range m.faces.length) (m, []) j
    simp only [List.count_nil, Nat.zero_add] at this
    by_cases hj : j ∈ List.range m.faces.length
    · rw [if_pos hj] at this
      exact this
    · rw [if_neg hj] at this
      omega
· intro hsmall
  unfold divisionLoop
  cases atCap with
  | true =>
    by_cases h0 : m.faces.length = 0
    · simp [h0]
    · simp only [if_true, ite_true, if_neg h0]
      exact divideFace_id_of_small mel mfa sf m [] 0 hsmall
  | false =>
    simp only [Bool.false_eq_true, if_false]
    exact foldl_divideFace_id mel mfa sf m [] hsmall _

/-- C3 witness: a below-threshold face is issued no split, and the pass
leaves the mesh unchanged with an empty trace. -/
theorem polypDivision_split_bounds_witness :
  ((divisionLoop 2 2 splitShrink false wMesh3).2).count 0 ≤ 2 ∧
    divisionLoop 2 2 splitShrink false wMesh3 = (wMesh3, []) :=
⟨(polypDivision_split_bounds 2 2 splitShrink false wMesh3).1 0,
  (polypDivision_split_bounds 2 2 splitShrink false wMesh3).2 (by decide)⟩

end CoralGrowth
